import Mathlib

/-
  Verification of the ARMv8 emulator core against its specification.

  The embedding follows src/include/core.hpp. Function bodies that live in
  the (absent) core.cpp and register.hpp are modelled from the specification
  text and are marked as such in their doc comments.
-/

/-- Instruction handler identifiers, one per INSTRUCTION_DECL in core.hpp
    (lines 183..210). Handlers are member-function pointers in the source;
    here each is a tag of a closed inductive type. -/
inductive InstructionHandler where
  | NOP
  | ADD_IMMEDIATE
  | ADD_SHIFTED_REGISTER
  | ADDS_IMMEDIATE
  | SUB_IMMEDIATE
  | SUB_SHIFTED_REGISTER
  | SUBS_IMMEDIATE
  | SUBS_SHIFTED_REGISTER
  | SUBS_EXTENDED_REGISTER
  | ORR_IMMEDIATE
  | ORR_SHIFTED_REGISTER
  | MOVNZK
  | B
  | B_COND
  | BL
  | CCMN_IMMEDIATE
  | CCMN_REGISTER
  | SVC
  | ADRP
  | AND_IMMEDIATE
  | AND_SHIFTED_REGISTER
  | ANDS_IMMEDIATE
  | ANDS_SHIFTED_REGISTER
  | STR_IMMEDIATE
  | STR_REGISTER
  | LDR_IMMEDIATE
  | LDR_REGISTER
  | CBZ
  deriving DecidableEq

/-- InstructionPattern from core.hpp lines 21..26: a mask, the fixed bits
    expected under the mask, the handler, and a diagnostic name. -/
structure InstructionPattern where
  mask : Nat
  pattern : Nat
  type : InstructionHandler
  name : String
  deriving DecidableEq

/-- The sole matching predicate of the decoder:
    (word AND mask) equals the fixed-bit pattern. -/
def patternMatches (p : InstructionPattern) (word : Nat) : Bool :=
  (word &&& p.mask) == p.pattern

/-- Modelled from the spec: the body of Core::decode is in the absent
    core.cpp; per spec section 4.1 it scans the instruction pattern table in
    fixed order and returns the handler of the first entry whose mask/pattern
    matches the word, signalling undefined encoding (here: none) when no
    entry matches. -/
def decode (table : List InstructionPattern) (word : Nat) : Option InstructionHandler :=
  (table.find? (fun p => patternMatches p word)).map (fun p => p.type)

/- Generic first-match lemmas about List.find?, shared by several claims. -/

theorem find_of_first {α : Type} (p : α → Bool) :
    ∀ (l : List α) (i : Nat) (hi : i < l.length),
      p (l.get ⟨i, hi⟩) = true →
      (∀ j (hj : j < i), p (l.get ⟨j, Nat.lt_trans hj hi⟩) = false) →
      l.find? p = some (l.get ⟨i, hi⟩) := by
  intro l
  induction l with
  | nil =>
      intro i hi
      exact absurd hi (Nat.not_lt_zero i)
  | cons a t ih =>
      intro i hi hp hb
      cases i with
      | zero =>
          exact List.find?_cons_of_pos _ hp
      | succ n =>
          have hpa : p a = false := hb 0 (Nat.succ_pos n)
          rw [List.find?_cons_of_neg _ (by simp [hpa])]
          exact ih n (Nat.lt_of_succ_lt_succ hi) hp
            (fun j hj => hb (j + 1) (Nat.succ_lt_succ hj))

theorem find_some_first {α : Type} (p : α → Bool) :
    ∀ (l : List α) (a : α), l.find? p = some a →
      ∃ (i : Nat) (hi : i < l.length), l.get ⟨i, hi⟩ = a ∧ p a = true ∧
        ∀ j (hj : j < i), p (l.get ⟨j, Nat.lt_trans hj hi⟩) = false := by
  intro l
  induction l with
  | nil =>
      intro a h
      simp [List.find?] at h
  | cons b t ih =>
      intro a h
      by_cases hb : p b = true
      · rw [List.find?_cons_of_pos _ hb] at h
        injection h with h
        exact ⟨0, Nat.succ_pos _, h, h ▸ hb, fun j hj => absurd hj (Nat.not_lt_zero j)⟩
      · have hb' : p b = false := by
          simpa using hb
        rw [List.find?_cons_of_neg _ (by simp [hb'])] at h
        obtain ⟨i, hi, hget, hpa, hbef⟩ := ih a h
        refine ⟨i + 1, Nat.succ_lt_succ hi, hget, hpa, ?_⟩
        intro j hj
        cases j with
        | zero => exact hb'
        | succ m => exact hbef m (Nat.lt_of_succ_lt_succ hj)

/-- C2: decode scans the pattern table in fixed order with
    (word AND mask) == pattern as the sole matching predicate and returns the
    handler of the first matching entry; in particular when two entries both
    match a word the earlier one is selected. -/
theorem c2_decode_first_match (table : List InstructionPattern) (word : Nat)
    (i : Nat) (hi : i < table.length)
    (hp : patternMatches (table.get ⟨i, hi⟩) word = true)
    (hb : ∀ j (hj : j < i), patternMatches (table.get ⟨j, Nat.lt_trans hj hi⟩) word = false) :
    decode table word = some (table.get ⟨i, hi⟩).type := by
  unfold decode
  rw [find_of_first (fun p => patternMatches p word) table i hi hp hb]
  rfl

/-- C2 witness: a deliberately overlapping pair of entries. The word 1
    matches both entries, and decode returns the handler of the earlier. -/
theorem c2_decode_first_match_witness :
    patternMatches ⟨0x0F, 0x01, InstructionHandler.B, "B"⟩ 1 = true ∧
    decode [⟨0xFF, 0x01, InstructionHandler.NOP, "NOP"⟩,
            ⟨0x0F, 0x01, InstructionHandler.B, "B"⟩] 1 = some InstructionHandler.NOP := by
  refine ⟨by decide, ?_⟩
  exact c2_decode_first_match
    [⟨0xFF, 0x01, InstructionHandler.NOP, "NOP"⟩,
     ⟨0x0F, 0x01, InstructionHandler.B, "B"⟩] 1 0 (by decide)
    (by decide) (fun j hj => absurd hj (Nat.not_lt_zero j))

/-- PSTATE from core.hpp lines 28..42: condition flags, masks, debug bits,
    the two-bit exception level EL, the execution-width flag RW and the
    stack-pointer-select bit SP. One-bit fields become Bool, EL becomes Nat. -/
structure PSTATE where
  N : Bool
  Z : Bool
  C : Bool
  V : Bool
  D : Bool
  A : Bool
  I : Bool
  F : Bool
  SS : Bool
  IL : Bool
  EL : Nat
  RW : Bool
  SP : Bool
  deriving DecidableEq

/-- A PSTATE with every flag clear and EL = 0. -/
def initPSTATE : PSTATE :=
  ⟨false, false, false, false, false, false, false, false, false, false, 0, false, false⟩

/-- The register-file index computed by Core::GPSP (core.hpp lines 110..112):
    GPR[R less than 31 selects R, otherwise 32 + PSTATE.EL]. -/
def gpspIndex (p : PSTATE) (R : Nat) : Nat :=
  if R < 31 then R else 32 + p.EL

/-- Core::GPSP as a read view over a register file given as a function from
    indices to 64-bit values. -/
def GPSP (GPR : Nat → Nat) (p : PSTATE) (R : Nat) : Nat :=
  GPR (gpspIndex p R)

/-- Core::GPZR (core.hpp lines 106..108): plain pass-through indexing of the
    register file, with no special casing of index 31. -/
def GPZR (GPR : Nat → Nat) (R : Nat) : Nat :=
  GPR R

/-- C1 counterexample: the claim places the banked stack pointer at index
    31 + EL, but GPSP computes 32 + PSTATE.EL; at EL = 0 and R = 31 the code
    selects index 32, not 31. -/
theorem c1_gpsp_counterexample :
    gpspIndex initPSTATE 31 = 32 ∧ gpspIndex initPSTATE 31 ≠ 31 + initPSTATE.EL := by
  decide

/-- C1 (amended): GPSP(R) selects register index R when R is below 31, and
    index 32 + EL when R = 31; the selection depends only on EL, with RW and
    SP never consulted. -/
theorem c1_gpsp_amended (p : PSTATE) (R : Nat) :
    (R < 31 → gpspIndex p R = R ∧ GPSP (fun k => k) p R = R) ∧
    gpspIndex p 31 = 32 + p.EL ∧
    (∀ q : PSTATE, q.EL = p.EL → gpspIndex q R = gpspIndex p R) := by
  refine ⟨fun h => ?_, ?_, fun q hq => ?_⟩
  · simp [gpspIndex, GPSP, h]
  · simp [gpspIndex]
  · simp [gpspIndex, hq]

/-- C1 witness: concrete evaluations of the amended statement, including a
    state differing from initPSTATE only in RW and SP. -/
theorem c1_gpsp_witness :
    gpspIndex initPSTATE 7 = 7 ∧
    gpspIndex initPSTATE 31 = 32 + initPSTATE.EL ∧
    gpspIndex { initPSTATE with RW := true, SP := true } 31 = gpspIndex initPSTATE 31 :=
  ⟨((c1_gpsp_amended initPSTATE 7).1 (by decide)).1,
   (c1_gpsp_amended initPSTATE 7).2.1,
   (c1_gpsp_amended initPSTATE 31).2.2 { initPSTATE with RW := true, SP := true } rfl⟩

/-- The state-passing view of the decoder. Modelled from the spec: the body
    of Core::decode is in the absent core.cpp; per spec section 4.1 decoding
    is a pure function of the instruction word, so it returns the machine
    state unchanged alongside the handler. -/
def decodeSt (table : List InstructionPattern) (s : PSTATE) (word : Nat) :
    PSTATE × Option InstructionHandler :=
  (s, decode table word)

/-- C3: decode is deterministic and depends only on the instruction word:
    running it from any two states returns the same handler or the same
    undefined-encoding result and leaves both states unchanged. -/
theorem c3_decode_pure (table : List InstructionPattern) (s₁ s₂ : PSTATE) (word : Nat) :
    (decodeSt table s₁ word).1 = s₁ ∧
    (decodeSt table s₂ word).1 = s₂ ∧
    (decodeSt table s₁ word).2 = (decodeSt table s₂ word).2 :=
  ⟨rfl, rfl, rfl⟩

/-- Modelled from the spec: instruction handler bodies are in the absent
    core.cpp; per spec section 4.5 a handler write to destination register Rd
    is discarded when Rd encodes the zero register (index 31), and otherwise
    stores the value in the register file. -/
def writeGPZR (regs : Nat → Nat) (R v : Nat) : Nat → Nat :=
  if R = 31 then regs else Function.update regs R v

/-- C7: an instruction writing to the zero-register index leaves every
    register unchanged, and as long as slot 31 holds zero (which such writes
    preserve), reading the zero register through GPZR yields zero. -/
theorem c7_zero_register (regs : Nat → Nat) (R v : Nat) :
    writeGPZR regs 31 v = regs ∧
    (regs 31 = 0 → writeGPZR regs R v 31 = 0 ∧ GPZR (writeGPZR regs R v) 31 = 0) := by
  constructor
  · simp [writeGPZR]
  · intro h
    by_cases hR : R = 31
    · subst hR
      simp [writeGPZR, GPZR, h]
    · simp [writeGPZR, GPZR, hR, Function.update_noteq (Ne.symm hR), h]

/-- C7 witness: a zero-register write of 7 is discarded on the all-zero
    register file, and a write to register 5 keeps zero-register reads at 0. -/
theorem c7_zero_register_witness :
    writeGPZR (fun _ => 0) 31 7 = (fun _ => 0 : Nat → Nat) ∧
    GPZR (writeGPZR (fun _ => 0) 5 7) 31 = 0 :=
  ⟨(c7_zero_register (fun _ => 0) 31 7).1,
   ((c7_zero_register (fun _ => 0) 5 7).2 rfl).2⟩

/-- Modelled from the spec: register.hpp (RegisterDouble and its 32-bit
    view) is not under src; per spec section 3 a write through the 32-bit
    view zero-extends into the full 64-bit register. The register value is a
    natural number below 2 to the 64; the write replaces it by the low 32
    bits of v. -/
def writeW (r v : Nat) : Nat :=
  v % 2 ^ 32

/-- C8: writing a 32-bit value v through the 32-bit view leaves the full
    64-bit register equal to v with the upper 32 bits zero. -/
theorem c8_writeW_zero_extends (r v : Nat) (h : v < 2 ^ 32) :
    writeW r v = v ∧ writeW r v >>> 32 = 0 := by
  refine ⟨Nat.mod_eq_of_lt h, ?_⟩
  simp only [writeW, Nat.shiftRight_eq_div_pow]
  omega

/-- C8 witness: writing 0x12340000 into a register holding 0xFFFFFFFFFFFFFFFF
    through the 32-bit view yields exactly 0x12340000. -/
theorem c8_writeW_zero_extends_witness :
    writeW 0xFFFFFFFFFFFFFFFF 0x12340000 = 0x12340000 ∧
    writeW 0xFFFFFFFFFFFFFFFF 0x12340000 >>> 32 = 0 :=
  c8_writeW_zero_extends 0xFFFFFFFFFFFFFFFF 0x12340000 (by norm_num)

/-- Modelled from the spec: the body of the 32-bit overload of
    Core::setNZCVFlags is in the absent core.cpp; per spec section 4.3 it
    sets N to the sign bit of the result, Z to result equals zero, C to the
    unsigned carry-out inferred from the pre- and post-operation values
    (result wrapped below the old value), and V to signed overflow at the
    32-bit boundary (sign change between old and new value). Other PSTATE
    fields are untouched. -/
def setNZCVFlags32 (p : PSTATE) (oldValue newValue : Nat) : PSTATE :=
  { p with
    N := decide (2 ^ 31 ≤ newValue % 2 ^ 32)
    Z := decide (newValue % 2 ^ 32 = 0)
    C := decide (newValue % 2 ^ 32 < oldValue % 2 ^ 32)
    V := decide ((oldValue % 2 ^ 32 < 2 ^ 31 ∧ 2 ^ 31 ≤ newValue % 2 ^ 32) ∨
                 (2 ^ 31 ≤ oldValue % 2 ^ 32 ∧ newValue % 2 ^ 32 < 2 ^ 31)) }

/-- C9: the 32-bit setNZCVFlags sets N to the sign bit of the result, Z to
    result equals zero, C to the unsigned carry-out and V to signed overflow
    at the 32-bit boundary; at old = 0x7FFFFFFF, new = 0x80000000 it sets V,
    sets N, clears Z, and C equals the unsigned carry computation for that
    pair. -/
theorem c9_setNZCVFlags32 (p : PSTATE) :
    (∀ oldValue newValue : Nat,
      (setNZCVFlags32 p oldValue newValue).N = (newValue % 2 ^ 32).testBit 31 ∧
      (setNZCVFlags32 p oldValue newValue).Z = decide (newValue % 2 ^ 32 = 0) ∧
      (setNZCVFlags32 p oldValue newValue).C =
        decide (newValue % 2 ^ 32 < oldValue % 2 ^ 32) ∧
      (setNZCVFlags32 p oldValue newValue).EL = p.EL) ∧
    (setNZCVFlags32 p 0x7FFFFFFF 0x80000000).V = true ∧
    (setNZCVFlags32 p 0x7FFFFFFF 0x80000000).N = true ∧
    (setNZCVFlags32 p 0x7FFFFFFF 0x80000000).Z = false ∧
    (setNZCVFlags32 p 0x7FFFFFFF 0x80000000).C =
      decide ((0x80000000 : Nat) % 2 ^ 32 < (0x7FFFFFFF : Nat) % 2 ^ 32) := by
  refine ⟨fun oldValue newValue => ⟨?_, rfl, rfl, rfl⟩, ?_, ?_, ?_, rfl⟩
  · rw [Nat.testBit_to_div_mod]
    show decide (2 ^ 31 ≤ newValue % 2 ^ 32) = decide (newValue % 2 ^ 32 / 2 ^ 31 % 2 = 1)
    simp only [decide_eq_decide]
    omega
  · show decide ((0x7FFFFFFF % 2 ^ 32 < 2 ^ 31 ∧ 2 ^ 31 ≤ 0x80000000 % 2 ^ 32) ∨
        (2 ^ 31 ≤ 0x7FFFFFFF % 2 ^ 32 ∧ 0x80000000 % 2 ^ 32 < 2 ^ 31)) = true
    decide
  · show decide ((2 ^ 31 : Nat) ≤ 0x80000000 % 2 ^ 32) = true
    decide
  · show decide ((0x80000000 : Nat) % 2 ^ 32 = 0) = false
    decide

/-- Position of the highest set bit, or none for zero. -/
def highestSetBit (x : Nat) : Option Nat :=
  if x = 0 then none else some (Nat.log2 x)

/-- Rotate an esize-bit value right by r (r below esize). -/
def rotateRightBits (esize x r : Nat) : Nat :=
  ((x >>> r) + (x <<< (esize - r))) % 2 ^ esize

/-- Replicate an esize-bit element n times into the low esize * n bits. -/
def replicateBits (esize x : Nat) : Nat → Nat
  | 0 => 0
  | n + 1 => replicateBits esize x n * 2 ^ esize + x

/-- Modelled from the spec: the body of Core::decodeImmediateWMask is in the
    absent core.cpp; per spec section 4.3 the replicated element size is
    derived from the highest set bit of the 7-bit concatenation of N with the
    complement of the 6-bit imms field, an element of imms plus one (taken
    modulo the element size) set bits is built, rotated right by immr, and
    replicated across the register width; a reserved combination (no set bit
    in the concatenation, for example N = 0 with imms all ones) yields the
    decode-error result none, distinct from the undefined-encoding condition
    of the decoder. -/
def decodeImmediateWMask (width N imms immr : Nat) : Option Nat :=
  match highestSetBit ((N % 2) * 64 + (63 - imms % 64)) with
  | none => none
  | some len =>
      some (replicateBits (2 ^ len)
        (rotateRightBits (2 ^ len) (2 ^ (imms % 2 ^ len + 1) - 1) (immr % 2 ^ len))
        (width / 2 ^ len))

theorem replicateBits_lt (esize x : Nat) (hx : x < 2 ^ esize) :
    ∀ n, replicateBits esize x n < 2 ^ (esize * n) := by
  intro n
  induction n with
  | zero => simp [replicateBits]
  | succ m ih =>
      have h1 : replicateBits esize x m ≤ 2 ^ (esize * m) - 1 := Nat.le_sub_one_of_lt ih
      have h2 : replicateBits esize x (m + 1) ≤ (2 ^ (esize * m) - 1) * 2 ^ esize + x := by
        simp only [replicateBits]
        exact Nat.add_le_add_right (Nat.mul_le_mul_right _ h1) x
      have h3 : (2 ^ (esize * m) - 1) * 2 ^ esize + x < 2 ^ (esize * m) * 2 ^ esize := by
        have hp : 1 ≤ 2 ^ (esize * m) := Nat.one_le_two_pow
        calc (2 ^ (esize * m) - 1) * 2 ^ esize + x
            < (2 ^ (esize * m) - 1) * 2 ^ esize + 2 ^ esize := Nat.add_lt_add_left hx _
          _ = 2 ^ (esize * m) * 2 ^ esize := by
              rw [Nat.sub_mul, one_mul]
              have : 2 ^ esize ≤ 2 ^ (esize * m) * 2 ^ esize :=
                Nat.le_mul_of_pos_left _ (Nat.pos_of_ne_zero (by positivity))
              omega
      have : replicateBits esize x (m + 1) < 2 ^ (esize * m) * 2 ^ esize :=
        Nat.lt_of_le_of_lt h2 h3
      simpa [Nat.pow_add, Nat.mul_succ] using this

/-- C4: for a reserved (N, imms) combination (N = 0 with all six imms bits
    set) decodeImmediateWMask signals a decode error (none) rather than
    returning a garbage value, and for every valid triple it returns a
    decoded mask fitting the 64-bit register width. -/
theorem c4_decodeImmediateWMask (N imms immr : Nat) (hN : N < 2) (hi : imms < 64) :
    (decodeImmediateWMask 64 N imms immr = none ↔ (N = 0 ∧ imms = 63)) ∧
    (¬(N = 0 ∧ imms = 63) →
      ∃ m, decodeImmediateWMask 64 N imms immr = some m ∧ m < 2 ^ 64) := by
  have hc : (N % 2) * 64 + (63 - imms % 64) = 0 ↔ (N = 0 ∧ imms = 63) := by omega
  constructor
  · by_cases h0 : (N % 2) * 64 + (63 - imms % 64) = 0
    · have h1 : highestSetBit ((N % 2) * 64 + (63 - imms % 64)) = none := by
        simp [highestSetBit, h0]
      unfold decodeImmediateWMask
      rw [h1]
      simpa using hc.mp h0
    · have h1 : highestSetBit ((N % 2) * 64 + (63 - imms % 64)) =
          some (Nat.log2 ((N % 2) * 64 + (63 - imms % 64))) := by
        simp [highestSetBit, h0]
      unfold decodeImmediateWMask
      rw [h1]
      constructor
      · intro h
        exact absurd h (by simp)
      · intro h
        exact absurd (hc.mpr h) h0
  · intro hvalid
    have h0 : (N % 2) * 64 + (63 - imms % 64) ≠ 0 := fun h => hvalid (hc.mp h)
    have h1 : highestSetBit ((N % 2) * 64 + (63 - imms % 64)) =
        some (Nat.log2 ((N % 2) * 64 + (63 - imms % 64))) := by
      simp [highestSetBit, h0]
    have hlen : Nat.log2 ((N % 2) * 64 + (63 - imms % 64)) < 7 := by
      rw [Nat.log2_lt h0]
      omega
    set len := Nat.log2 ((N % 2) * 64 + (63 - imms % 64)) with hlendef
    refine ⟨_, by unfold decodeImmediateWMask; rw [h1], ?_⟩
    have hrot : rotateRightBits (2 ^ len) (2 ^ (imms % 2 ^ len + 1) - 1) (immr % 2 ^ len) <
        2 ^ 2 ^ len :=
      Nat.mod_lt _ (Nat.pos_of_ne_zero (by positivity))
    have hbound := replicateBits_lt (2 ^ len) _ hrot (64 / 2 ^ len)
    calc replicateBits (2 ^ len) _ (64 / 2 ^ len) < 2 ^ (2 ^ len * (64 / 2 ^ len)) := hbound
      _ ≤ 2 ^ 64 := Nat.pow_le_pow_right (by omega) (by
          have := Nat.mul_div_le 64 (2 ^ len)
          omega)

/-- C4 witness: the reserved combination N = 0, imms = 63 fails with the
    decode-error result, while the valid triple N = 1, imms = 0, immr = 0
    decodes to a 64-bit mask. -/
theorem c4_decodeImmediateWMask_witness :
    decodeImmediateWMask 64 0 63 0 = none ∧
    ∃ m, decodeImmediateWMask 64 1 0 0 = some m ∧ m < 2 ^ 64 :=
  ⟨(c4_decodeImmediateWMask 0 63 0 (by decide) (by decide)).1.mpr ⟨rfl, rfl⟩,
   (c4_decodeImmediateWMask 1 0 0 (by decide) (by decide)).2 (by simp)⟩

/-- NumBreakpoints from core.hpp line 81. -/
def NumBreakpoints : Nat := 0x10

/-- TemporarySteppingBreakpointId from core.hpp line 82: the reserved
    single-step slot id, equal to NumBreakpoints. -/
def TemporarySteppingBreakpointId : Nat := NumBreakpoints

/-- The core state relevant to the debug controller: the three status flags
    with their in-header default initialisers (core.hpp lines 122..127), the
    breakpoint table of NumBreakpoints + 1 optional addresses (line 128) and
    the program counter. -/
structure Core where
  halted : Bool
  broken : Bool
  debugMode : Bool
  breakpoints : Fin (NumBreakpoints + 1) → Option Nat
  pc : Nat

/-- The reserved single-step slot, the final entry of the breakpoint table. -/
def stepSlot : Fin (NumBreakpoints + 1) :=
  ⟨TemporarySteppingBreakpointId, by decide⟩

/-- Modelled from the spec: the fetch/decode/execute cycle bodies are in the
    absent core.cpp; for the debug controller the one observable effect of a
    cycle is the program-counter update, abstracted by the successor function
    next (a non-branching instruction has next pc = pc + 4). -/
def executeCycle (next : Nat → Nat) (s : Core) : Core :=
  { s with pc := next s.pc }

/-- Whether the program counter matches any armed breakpoint slot. -/
def breakpointHit (s : Core) : Bool :=
  (List.finRange (NumBreakpoints + 1)).any (fun i => s.breakpoints i == some s.pc)

/-- Modelled from the spec: Core::tick is in the absent core.cpp; per spec
    sections 2 and 4.6 a tick does nothing when halted or broken, breaks
    before the cycle when in debug mode and the program counter matches an
    armed slot, and otherwise performs one fetch/decode/execute cycle. -/
def tick (next : Nat → Nat) (s : Core) : Core :=
  if s.halted then s
  else if s.broken then s
  else if s.debugMode && breakpointHit s then { s with broken := true }
  else executeCycle next s

/-- Modelled from the spec: Core::continueCore is in the absent core.cpp;
    per spec section 4.6 it resumes from a break. -/
def continueCore (s : Core) : Core :=
  { s with broken := false }

/-- Modelled from the spec: Core::enterDebugMode is in the absent core.cpp;
    per spec section 4.6 it enables debug mode without halting execution. -/
def enterDebugMode (s : Core) : Core :=
  { s with debugMode := true }

/-- Modelled from the spec: Core::setBreakpoint is in the absent core.cpp;
    per spec section 4.6 it assigns the address to the first free user slot
    (slots 0 to NumBreakpoints - 1) and returns the slot id, failing with
    none when every user slot is occupied. -/
def setBreakpoint (s : Core) (address : Nat) : Core × Option (Fin (NumBreakpoints + 1)) :=
  match (List.finRange (NumBreakpoints + 1)).find?
      (fun i => decide (i.val < NumBreakpoints) && (s.breakpoints i).isNone) with
  | some i => ({ s with breakpoints := Function.update s.breakpoints i (some address) }, some i)
  | none => (s, none)

/-- The intermediate state of a single step with the reserved slot armed at
    the address immediately following the current instruction. -/
def singleStepArmed (s : Core) : Core :=
  { s with
    broken := false
    breakpoints := Function.update s.breakpoints stepSlot (some (s.pc + 4)) }

/-- Modelled from the spec: Core::singleStep is in the absent core.cpp; per
    spec section 4.6 it arms the reserved step slot with the address
    immediately following the current program counter, resumes execution for
    exactly one fetch/decode/execute cycle, then disarms the step slot and
    re-enters the broken state. -/
def singleStep (next : Nat → Nat) (s : Core) : Core :=
  let s1 := executeCycle next (singleStepArmed s)
  { s1 with
    broken := true
    breakpoints := Function.update s1.breakpoints stepSlot none }

/-- The state of a newly constructed Core: the flag values are the default
    member initialisers of core.hpp lines 122..127 and the breakpoint table
    default-constructs to all-empty (line 128); the program counter start is
    modelled as zero. -/
def initCore : Core :=
  { halted := false
    broken := false
    debugMode := false
    breakpoints := fun _ => none
    pc := 0 }

/-- C5: the breakpoint table has 16 user slots and one reserved stepping
    slot with distinct id 16; setBreakpoint assigns the address to the first
    free user slot and returns its id, which is never the reserved id, and
    fails with none exactly when all user slots are occupied, leaving the
    state unchanged. -/
theorem c5_setBreakpoint :
    NumBreakpoints = 16 ∧ TemporarySteppingBreakpointId = 16 ∧
    (∀ (s : Core) (a : Nat) (i : Fin (NumBreakpoints + 1)),
      (setBreakpoint s a).2 = some i →
        i.val < NumBreakpoints ∧ i ≠ stepSlot ∧ s.breakpoints i = none ∧
        (setBreakpoint s a).1.breakpoints i = some a ∧
        ∀ j : Fin (NumBreakpoints + 1), j.val < i.val → s.breakpoints j ≠ none) ∧
    (∀ (s : Core) (a : Nat),
      (setBreakpoint s a).2 = none →
        (∀ i : Fin (NumBreakpoints + 1), i.val < NumBreakpoints → s.breakpoints i ≠ none) ∧
        (setBreakpoint s a).1 = s) := by
  refine ⟨rfl, rfl, ?_, ?_⟩
  · intro s a i h
    rcases hf : (List.finRange (NumBreakpoints + 1)).find?
        (fun i => decide (i.val < NumBreakpoints) && (s.breakpoints i).isNone) with _ | j
    · unfold setBreakpoint at h
      rw [hf] at h
      exact absurd h (by simp)
    · unfold setBreakpoint at h
      rw [hf] at h
      simp only at h
      injection h with h
      subst h
      have hP := List.find?_some hf
      simp only [Bool.and_eq_true, decide_eq_true_eq, Option.isNone_iff_eq_none] at hP
      obtain ⟨hval, hnone⟩ := hP
      refine ⟨hval, ?_, hnone, ?_, ?_⟩
      · intro heq
        rw [heq] at hval
        exact absurd hval (by decide)
      · unfold setBreakpoint
        rw [hf]
        simp [Function.update_same]
      · obtain ⟨k, hk, hget, _, hbef⟩ := find_some_first _ _ _ hf
        have hik : j.val = k := by
          have hv := congrArg Fin.val hget
          rw [List.get_finRange] at hv
          exact hv.symm
        intro j' hj'
        have hjlt : j'.val < k := hik ▸ hj'
        have hfalse' : (decide (j'.val < NumBreakpoints) && (s.breakpoints j').isNone) = false := by
          have hb := hbef j'.val (by omega)
          rwa [List.get_finRange] at hb
        intro hcontra
        have htrue : (decide (j'.val < NumBreakpoints) && (s.breakpoints j').isNone) = true := by
          rw [hcontra]
          simp only [Option.isNone_none, Bool.and_true, decide_eq_true_eq]
          omega
        rw [htrue] at hfalse'
        exact Bool.noConfusion hfalse'
  · intro s a h
    rcases hf : (List.finRange (NumBreakpoints + 1)).find?
        (fun i => decide (i.val < NumBreakpoints) && (s.breakpoints i).isNone) with _ | j
    · constructor
      · intro i hival hcontra
        have hmem := List.find?_eq_none.mp hf i (List.mem_finRange i)
        simp only [Bool.and_eq_true, decide_eq_true_eq, Option.isNone_iff_eq_none,
          not_and] at hmem
        exact hmem hival hcontra
      · unfold setBreakpoint
        rw [hf]
    · unfold setBreakpoint at h
      rw [hf] at h
      exact absurd h (by simp)

/-- C5 witness: on a fresh core with an empty table, setBreakpoint assigns
    slot 0 and stores the address there. -/
theorem c5_setBreakpoint_witness :
    (setBreakpoint initCore 42).2 = some ⟨0, by decide⟩ ∧
    (setBreakpoint initCore 42).1.breakpoints ⟨0, by decide⟩ = some 42 ∧
    initCore.breakpoints ⟨0, by decide⟩ = none := by
  have h : (setBreakpoint initCore 42).2 = some ⟨0, by decide⟩ := by decide
  exact ⟨h, (c5_setBreakpoint.2.2.1 initCore 42 ⟨0, by decide⟩ h).2.2.2.1,
    (c5_setBreakpoint.2.2.1 initCore 42 ⟨0, by decide⟩ h).2.2.1⟩

/-- C6: from a broken core at PC = A, singleStep arms the reserved step slot
    with A + 4, performs exactly one fetch/decode/execute cycle (the PC moves
    to the successor), then disarms the step slot and re-enters the broken
    state; afterwards a continueCore followed by a tick executes a cycle
    instead of immediately re-breaking, provided no other slot is armed at
    the successor address. -/
theorem c6_singleStep (next : Nat → Nat) (s : Core)
    (hbroken : s.broken = true) (hhalted : s.halted = false) :
    (singleStepArmed s).breakpoints stepSlot = some (s.pc + 4) ∧
    (singleStep next s).pc = next s.pc ∧
    (singleStep next s).broken = true ∧
    (singleStep next s).breakpoints stepSlot = none ∧
    ((∀ i : Fin (NumBreakpoints + 1), i ≠ stepSlot →
        s.breakpoints i ≠ some (next s.pc)) →
      tick next (continueCore (singleStep next s)) =
        executeCycle next (continueCore (singleStep next s)) ∧
      (tick next (continueCore (singleStep next s))).broken = false) := by
  refine ⟨?_, rfl, rfl, ?_, ?_⟩
  · simp [singleStepArmed, Function.update_same]
  · simp [singleStep, executeCycle, singleStepArmed, Function.update_same]
  · intro h
    have hbps : ∀ i : Fin (NumBreakpoints + 1),
        (continueCore (singleStep next s)).breakpoints i ≠
          some ((continueCore (singleStep next s)).pc) := by
      intro i
      by_cases hi : i = stepSlot
      · subst hi
        simp [continueCore, singleStep, executeCycle, singleStepArmed, Function.update_same]
      · have : (continueCore (singleStep next s)).breakpoints i = s.breakpoints i := by
          simp [continueCore, singleStep, executeCycle, singleStepArmed,
            Function.update_noteq hi]
        rw [this]
        exact h i hi
    have hhit : breakpointHit (continueCore (singleStep next s)) = false := by
      rw [breakpointHit]
      rw [List.any_eq_false]
      intro i _
      simp only [beq_iff_eq]
      exact hbps i
    have hcont : (continueCore (singleStep next s)).halted = false := hhalted
    have hbrk : (continueCore (singleStep next s)).broken = false := rfl
    constructor
    · rw [tick, hcont, hbrk, hhit]
      simp
    · rw [tick, hcont, hbrk, hhit]
      simp [executeCycle]
      exact hbrk

/-- C6 witness: a broken core at PC 100 with an empty table; single stepping
    moves the PC to 104, re-breaks with the step slot disarmed, and a
    continue plus tick does not immediately re-break. -/
theorem c6_singleStep_witness :
    (singleStep (fun k => k + 4) ⟨false, true, true, fun _ => none, 100⟩).pc = 104 ∧
    (singleStep (fun k => k + 4) ⟨false, true, true, fun _ => none, 100⟩).broken = true ∧
    (singleStep (fun k => k + 4)
      ⟨false, true, true, fun _ => none, 100⟩).breakpoints stepSlot = none ∧
    (tick (fun k => k + 4) (continueCore
      (singleStep (fun k => k + 4) ⟨false, true, true, fun _ => none, 100⟩))).broken = false := by
  have h := c6_singleStep (fun k => k + 4) ⟨false, true, true, fun _ => none, 100⟩ rfl rfl
  exact ⟨h.2.1, h.2.2.1, h.2.2.2.1, (h.2.2.2.2 (by intro i hi; simp)).2⟩

/-- C10: a newly constructed core is not halted, not broken and not in
    debug mode, and its first tick performs a normal fetch/decode/execute
    cycle rather than doing nothing. -/
theorem c10_initCore (next : Nat → Nat) :
    initCore.halted = false ∧ initCore.broken = false ∧ initCore.debugMode = false ∧
    tick next initCore = executeCycle next initCore :=
  ⟨rfl, rfl, rfl, rfl⟩
